import Mathlib

/-!
Shallow embedding of `analyze_dataset.py`, a pandas script computing
descriptive statistics over a museum-photograph metadata table, together
with proofs about its reducers.

Modelling conventions:
* a cell is `Option Value` with `none` for a missing value (pandas NaN);
* numbers are `ℚ` (the script only adds, divides, floors and rounds);
* a `Table` is the column-name list plus the row list of a DataFrame;
* pandas `sort_values(ascending=False)` (`nargsort`) reverses the array,
  argsorts it ascending with numpy's default `kind='quicksort'`, and
  reverses the result; the embedding uses a stable sort in its place,
  which agrees with numpy whenever numpy's sort is stable (in particular
  on the small concrete fixtures below, which numpy handles with its
  insertion-sort path) and is otherwise some permutation with the same
  order on the sort key — properties proved about sorted outputs are
  therefore only membership, multiplicity and key-sortedness facts,
  which hold for every correct sort, never tie-order facts;
* `collections.Counter` over an iterable yields keys in first-occurrence
  order, each with its multiplicity (`counter`);
* a Python dict written by repeated assignment keeps insertion order and
  overwrites in place (`upsert` / `dictOf`).
-/

namespace AnalyzeDataset

/-- Python `str.split('|')` on the character list of a string. -/
def splitPipe : List Char → List (List Char)
  | [] => [[]]
  | c :: rest =>
    if c = '|' then [] :: splitPipe rest
    else
      match splitPipe rest with
      | [] => [[c]]
      | s :: ss => (c :: s) :: ss

/-- Python `str.strip()`: drop whitespace from both ends. -/
def trimCh (l : List Char) : List Char :=
  ((l.dropWhile Char.isWhitespace).reverse.dropWhile Char.isWhitespace).reverse

/-- Python `str.replace(pat, '')` on character lists: delete every
non-overlapping occurrence of `pat`, scanning left to right.  Both call
sites of `str.replace` in the script replace with the empty string.  The
fuel argument (instantiated with the length of the scanned list, which
bounds the number of steps) only makes the recursion structural. -/
def replaceAllChAux (pat : List Char) : Nat → List Char → List Char
  | _, [] => []
  | 0, l => l
  | fuel + 1, c :: rest =>
    if pat ≠ [] ∧ pat.isPrefixOf (c :: rest) then
      replaceAllChAux pat fuel ((c :: rest).drop pat.length)
    else
      c :: replaceAllChAux pat fuel rest

/-- Python `str.replace(pat, '')` on character lists. -/
def replaceAllCh (pat s : List Char) : List Char :=
  replaceAllChAux pat s.length s

/-- Python `str.replace(pat, '')` on strings. -/
def strReplace (s pat : String) : String :=
  String.mk (replaceAllCh pat.data s.data)

/-- Python `str.startswith`. -/
def strStartsWith (s p : String) : Bool :=
  p.data.isPrefixOf s.data

/-- Python `str.endswith`. -/
def strEndsWith (s p : String) : Bool :=
  p.data.isSuffixOf s.data

/-- A scalar cell value of the table: a string or a number. -/
inductive Value where
  | str (s : String)
  | num (q : ℚ)
deriving DecidableEq

/-- Python `str(v)`. -/
def Value.toPyStr : Value → String
  | .str s => s
  | .num q => toString q

/-- Numeric reading of a value.  The schema declares the columns this is
applied to (`creation_year`, the `_percent` family) numeric, so the
`str` branch never occurs on the data the script is written for. -/
def Value.toQ : Value → ℚ
  | .str _ => 0
  | .num q => q

/-- A cell: `none` is the missing-value marker (pandas NaN). -/
abbrev Cell := Option Value

/-- One record, listing cells in the order of the table's columns. -/
abbrev Row := List Cell

/-- A loaded DataFrame: column names plus the ordered records. -/
structure Table where
  cols : List String
  rows : List Row
deriving DecidableEq

/-- `r[c]` for a record `r` laid out along the column list `cols`: the
cell in the position of column `c`, `none` when the column is absent or
the row is short. -/
def getCellC (cols : List String) (r : Row) (c : String) : Cell :=
  match cols.findIdx? (fun c2 => c2 = c) with
  | some i => r.getD i none
  | none => none

/-- `r[c]` for a record `r` of table `t`. -/
def getCell (t : Table) (r : Row) (c : String) : Cell :=
  getCellC t.cols r c

/-- `df[c]`: the column `c` as the list of its cells, one per record. -/
def getCol (t : Table) (c : String) : List Cell :=
  t.rows.map (fun r => getCell t r c)

/-- `df[c].notna().sum()` / `len(df[c].dropna())`: how many records have a
non-missing value in column `c`. -/
def nonMissingCount (t : Table) (c : String) : Nat :=
  ((getCol t c).filterMap id).length

/-- First-occurrence deduplication: the distinct elements of `xs` in the
order each is first encountered. -/
def dedupFO {α : Type} [DecidableEq α] : List α → List α
  | [] => []
  | x :: xs => x :: (dedupFO xs).filter (fun y => decide (y ≠ x))

/-- `collections.Counter(xs)` as an association list: keys in
first-occurrence order, each with its multiplicity in `xs`. -/
def counter {α : Type} [DecidableEq α] (xs : List α) : List (α × Nat) :=
  (dedupFO xs).map (fun v => (v, xs.count v))

/-- Insert `a` into `l` before the first element `b` with `le a b`. -/
def orderedInsertB {α : Type} (le : α → α → Bool) (a : α) : List α → List α
  | [] => [a]
  | b :: l => if le a b then a :: b :: l else b :: orderedInsertB le a l

/-- A stable sort (structurally recursive, so concrete runs reduce):
extensionally this is the unique stable sort of `l` by `le`. -/
def insertionSortB {α : Type} (le : α → α → Bool) : List α → List α
  | [] => []
  | a :: l => orderedInsertB le a (insertionSortB le l)

/-- `sort_values(ascending=True)`: modelled with a stable sort.  numpy's
default `kind='quicksort'` (introsort) is not stable above its small
insertion-sort cutoff, so of this model only facts true of every
correct sort (membership, multiplicities, key-sortedness) are relied
on, not tie order. -/
def sortValuesAsc {α : Type} (le : α → α → Bool) (xs : List α) : List α :=
  insertionSortB le xs

/-- `sort_values(ascending=False)`: pandas `nargsort` reverses the
array, argsorts it ascending (default `kind='quicksort'`), and reverses
the result; the ascending argsort is modelled with a stable sort under
the same caveat as `sortValuesAsc`. -/
def sortValuesDesc {α : Type} (le : α → α → Bool) (xs : List α) : List α :=
  (insertionSortB le xs.reverse).reverse

/-- One Python dict assignment `d[k] = v`: overwrite in place if the key
exists, else append. -/
def upsert {β : Type} (d : List (String × β)) (k : String) (v : β) :
    List (String × β) :=
  if (d.map Prod.fst).contains k then
    d.map (fun kv => if kv.1 = k then (k, v) else kv)
  else d ++ [(k, v)]

/-- A dict built up by assigning each pair of `ps` in order. -/
def dictOf {β : Type} (ps : List (String × β)) : List (String × β) :=
  ps.foldl (fun d kv => upsert d kv.1 kv.2) []

/-- `round(x, 2)`: round to 2 decimal digits. -/
def round2 (q : ℚ) : ℚ :=
  ((round (q * 100) : ℤ) : ℚ) / 100

/-- `Series.mean()`. -/
def qmean (l : List ℚ) : ℚ :=
  l.sum / (l.length : ℚ)

/-- `Series.max()` of a nonempty series (`0` never reached: the script
guards with `len(values) > 0`). -/
def qmax : List ℚ → ℚ
  | [] => 0
  | x :: xs => xs.foldl max x

/-- `Series.min()` as an option: `none` on an all-missing series. -/
def qminO : List ℚ → Option ℚ
  | [] => none
  | x :: xs => some (xs.foldl min x)

/-- `Series.max()` as an option: `none` on an all-missing series. -/
def qmaxO : List ℚ → Option ℚ
  | [] => none
  | x :: xs => some (xs.foldl max x)

/-- `Series.median()`: middle of the sorted values, averaging the two
middles on even length. -/
def qmedian (l : List ℚ) : ℚ :=
  let s := insertionSortB (fun a b => decide (a ≤ b)) l
  if s.length % 2 = 1 then s.getD (s.length / 2) 0
  else (s.getD (s.length / 2 - 1) 0 + s.getD (s.length / 2) 0) / 2

/-- Python `int(q)`: truncation toward zero. -/
def intOfQ (q : ℚ) : Int :=
  q.num.tdiv (q.den : Int)

/-- `analyze_gender` / `analyze_work_types` body: `value_counts(dropna=False)`
(counts of every distinct cell, the missing cell included, sorted by
descending count) followed by `assign(percentage=(count/total*100).round(2))`. -/
def catDist (t : Table) (c : String) : List (Cell × Nat × ℚ) :=
  let total := t.rows.length
  (sortValuesDesc (fun a b => decide (a.2 ≤ b.2)) (counter (getCol t c))).map
    (fun vc => (vc.1, vc.2, round2 ((vc.2 : ℚ) / (total : ℚ) * 100)))

/-- `analyze_gender(df)`. -/
def analyze_gender (t : Table) : List (Cell × Nat × ℚ) :=
  catDist t "gender"

/-- `analyze_work_types(df)`. -/
def analyze_work_types (t : Table) : List (Cell × Nat × ℚ) :=
  catDist t "work_type"

/-- The segments one non-missing multi-valued cell contributes: split on
`|` and strip each piece when a `|` is present, else the stripped whole. -/
def pySegments (s : String) : List String :=
  if s.data.contains '|' then (splitPipe s.data).map (fun seg => String.mk (trimCh seg))
  else [String.mk (trimCh s.data)]

/-- The flattened segment list of column `c`: missing cells dropped
(`dropna`), each remaining value contributing its segments in order. -/
def allSegments (t : Table) (c : String) : List String :=
  ((getCol t c).filterMap id).flatMap (fun v => pySegments v.toPyStr)

/-- `analyze_nationality` / `analyze_artists` body: `Counter` over the
flattened segments, then `sort_values('count', ascending=False)`. -/
def splitCounts (t : Table) (c : String) : List (String × Nat) :=
  sortValuesDesc (fun a b => decide (a.2 ≤ b.2)) (counter (allSegments t c))

/-- `analyze_nationality(df)`. -/
def analyze_nationality (t : Table) : List (String × Nat) :=
  splitCounts t "origin"

/-- `analyze_artists(df)`. -/
def analyze_artists (t : Table) : List (String × Nat) :=
  splitCounts t "artist_name"

/-- `analyze_objects(df)`: for every column starting with `has_`, count
non-missing values; keep positive counts in a dict keyed by
`col.replace('has_', '')`; add `percentage`; sort by descending count. -/
def analyze_objects (t : Table) : List (String × Nat × ℚ) :=
  let object_columns := t.cols.filter (fun c => strStartsWith c "has_")
  let pairs := object_columns.filterMap (fun c =>
    if 0 < nonMissingCount t c then some (strReplace c "has_", nonMissingCount t c)
    else none)
  sortValuesDesc (fun a b => decide (a.2.1 ≤ b.2.1))
    ((dictOf pairs).map
      (fun kv => (kv.1, kv.2, round2 ((kv.2 : ℚ) / (t.rows.length : ℚ) * 100))))

/-- `analyze_object_percentages(df)`: for every column ending in
`_percent`, the non-missing values; when some exist, a row keyed by
`col.replace('_percent', '').replace('has_', '')` holding mean, median,
max and count; sorted by descending mean. -/
def analyze_object_percentages (t : Table) : List (String × ℚ × ℚ × ℚ × Nat) :=
  let percent_columns := t.cols.filter (fun c => strEndsWith c "_percent")
  let stats := dictOf (percent_columns.filterMap (fun c =>
    let values := ((getCol t c).filterMap id).map Value.toQ
    if 0 < values.length then
      some (strReplace (strReplace c "_percent") "has_",
            (qmean values, qmedian values, qmax values, values.length))
    else none))
  sortValuesDesc (fun a b => decide (a.2.1 ≤ b.2.1)) stats

/-- `year // 10 * 10`: the decade of a year.  Floor division by `10` is
computed as `Int.fdiv` on the unreduced fraction `num / (den * 10)`;
`decadeOf_eq_floor` below checks this equals `⌊q / 10⌋ * 10`. -/
def decadeOf (q : ℚ) : Int :=
  q.num.fdiv ((q.den : Int) * 10) * 10

/-- `analyze_temporal(df)`: drop missing `creation_year`, bucket by
`year // 10 * 10`, `value_counts()` (descending) then `sort_index()`
(ascending by decade). -/
def analyze_temporal (t : Table) : List (Int × Nat) :=
  let decades := ((getCol t "creation_year").filterMap id).map
    (fun v => decadeOf v.toQ)
  sortValuesAsc (fun a b => decide (a.1 ≤ b.1))
    (sortValuesDesc (fun a b => decide (a.2 ≤ b.2)) (counter decades))

/-- A total order used by `groupby(sort=True)` and `sort_values` on value
cells; on the homogeneous columns the script sorts, only the same-kind
branches are exercised. -/
def valueLe : Value → Value → Bool
  | .num a, .num b => decide (a ≤ b)
  | .str a, .str b => decide (a ≤ b)
  | .num _, .str _ => true
  | .str _, .num _ => false

/-- Order on optional works-in-museum cells; both arguments are `some`
at the call site (missing cells are split off first, `na_position`). -/
def cellLe : Cell → Cell → Bool
  | some a, some b => valueLe a b
  | _, _ => true

/-- The `(artist_name, record)` pairs of the records whose `artist_name`
is present: `groupby('artist_name')` drops missing keys (`dropna=True`). -/
def keyedRows (t : Table) : List (Value × Row) :=
  t.rows.filterMap (fun r =>
    match getCell t r "artist_name" with
    | some v => some (v, r)
    | none => none)

/-- The group of a key: its records in table order. -/
def groupOf (t : Table) (v : Value) : List Row :=
  ((keyedRows t).filter (fun kr => kr.1 = v)).map Prod.snd

/-- The aggregated row of one group: the `first` aggregator takes the
first non-missing `works_in_museum` of the group, the `count` aggregator
counts the group's non-missing `object_id` values. -/
def museumRow (t : Table) (v : Value) : Value × Cell × Nat :=
  (v, ((groupOf t v).filterMap (fun r => getCell t r "works_in_museum")).head?,
   ((groupOf t v).filterMap (fun r => getCell t r "object_id")).length)

/-- `analyze_museum_collection(df)`: group by `artist_name` (missing keys
dropped, keys sorted ascending), aggregate, then
`sort_values('works_in_museum', ascending=False)` with missing values
kept last (`na_position='last'`). -/
def analyze_museum_collection (t : Table) : List (Value × Cell × Nat) :=
  let keys := sortValuesAsc valueLe (dedupFO ((keyedRows t).map Prod.fst))
  let rows := keys.map (museumRow t)
  sortValuesDesc (fun a b => cellLe a.2.1 b.2.1)
      (rows.filter (fun rw => rw.2.1.isSome)) ++
    rows.filter (fun rw => !rw.2.1.isSome)

/-- The non-missing `creation_year` values, read as numbers. -/
def yearsQ (t : Table) : List ℚ :=
  ((getCol t "creation_year").filterMap id).map Value.toQ

/-- `Series.nunique()`: distinct non-missing values of a column. -/
def nuniqueCol (t : Table) (c : String) : Nat :=
  (dedupFO ((getCol t c).filterMap id)).length

/-- The single summary row of `generate_summary_stats`. -/
structure Summary where
  total_records : Nat
  total_columns : Nat
  unique_artists : Nat
  unique_object_ids : Nat
  year_min : Int
  year_max : Int
deriving DecidableEq

/-- The missing-value profile of `generate_summary_stats`:
`(df.isnull().sum() / len(df) * 100).round(2)` per column, sorted by
descending percentage. -/
def missingProfile (t : Table) : List (String × ℚ) :=
  sortValuesDesc (fun a b => decide (a.2 ≤ b.2))
    (t.cols.map (fun c =>
      (c, round2 ((((getCol t c).filter (fun v => v.isNone)).length : ℚ) /
        (t.rows.length : ℚ) * 100))))

/-- `generate_summary_stats(df)`: the summary row and the missing-value
profile.  `int(df['creation_year'].min())` raises (`ValueError`) when the
non-missing years are empty, since the min is then NaN; this failure is
the `none` result. -/
def generate_summary_stats (t : Table) :
    Option (Summary × List (String × ℚ)) :=
  match qminO (yearsQ t), qmaxO (yearsQ t) with
  | some mn, some mx =>
    some ({ total_records := t.rows.length
            total_columns := t.cols.length
            unique_artists := nuniqueCol t "artist_name"
            unique_object_ids := nuniqueCol t "object_id"
            year_min := intOfQ mn
            year_max := intOfQ mx }, missingProfile t)
  | _, _ => none

/-- The decade list exactly as the claim words it (for comparison with
`analyze_temporal`): drop records with missing `creation_year` and map
each remaining year `y` to `⌊y / 10⌋ * 10`. -/
def specDecades (t : Table) : List Int :=
  ((getCol t "creation_year").filterMap id).map
    (fun v => Int.floor (v.toQ / 10) * 10)

/-- `main` without the I/O glue: every reducer applied to the one loaded
table, yielding the content of all the written reports. -/
def runPipeline (t : Table) :
    Option (Summary × List (String × ℚ)) × List (Cell × Nat × ℚ) ×
    List (String × Nat) × List (String × Nat) × List (Int × Nat) ×
    List (Cell × Nat × ℚ) × List (Value × Cell × Nat) ×
    List (String × Nat × ℚ) × List (String × ℚ × ℚ × ℚ × Nat) :=
  (generate_summary_stats t, analyze_gender t, analyze_nationality t,
   analyze_artists t, analyze_temporal t, analyze_work_types t,
   analyze_museum_collection t, analyze_objects t,
   analyze_object_percentages t)

/-- Fixture: a 4-record gender column `m, missing, f, m`. -/
def sampleGender : Table :=
  ⟨["gender"], [[some (.str "m")], [none], [some (.str "f")], [some (.str "m")]]⟩

/-- Fixture: the spec's splitter example, records `A|B` and `B`. -/
def sampleSplit : Table :=
  ⟨["artist_name"], [[some (.str "A|B")], [some (.str "B")]]⟩

/-- Fixture: one multi-valued artist cell with surrounding whitespace. -/
def sampleTrim : Table :=
  ⟨["artist_name"], [[some (.str " A | B ")]]⟩

/-- Fixture: a presence column whose name nests the `has_` marker. -/
def sampleNestedHas : Table :=
  ⟨["has_has_x"], [[some (.str "y")]]⟩

/-- Fixture: the spec's temporal example years `1923, 1929, 1931`. -/
def sampleYears : Table :=
  ⟨["creation_year"], [[some (.num 1923)], [some (.num 1929)], [some (.num 1931)]]⟩

/-- Fixture: a single record whose `artist_name` is missing. -/
def sampleMissingArtist : Table :=
  ⟨["artist_name", "works_in_museum", "object_id"],
   [[none, some (.str "5"), some (.str "o1")]]⟩

/-- Fixture: a single record with `artist_name` `X`. -/
def sampleOneArtist : Table :=
  ⟨["artist_name", "works_in_museum", "object_id"],
   [[some (.str "X"), some (.str "5"), some (.str "o1")]]⟩

/-- Fixture: `creation_year` missing on every record. -/
def sampleAllMissingYears : Table :=
  ⟨["creation_year"], [[none], [none]]⟩

/-- Fixture: one column named `has_hat_percent`, one non-missing value. -/
def sampleHatPercent : Table :=
  ⟨["has_hat_percent"], [[some (.num 30)]]⟩

/-- Fixture: one record whose `artist_name` `A|B` is multi-valued. -/
def sampleMultiArtist : Table :=
  ⟨["artist_name", "object_id", "creation_year"],
   [[some (.str "A|B"), some (.str "o1"), some (.num 1950)]]⟩

/-! Helper lemmas about the embedded library primitives. -/

theorem mem_dedupFO {α : Type} [DecidableEq α] {a : α} {l : List α} :
    a ∈ dedupFO l ↔ a ∈ l := by
  induction l with
  | nil => simp [dedupFO]
  | cons x xs ih =>
    simp only [dedupFO, List.mem_cons, List.mem_filter, decide_eq_true_iff]
    by_cases hax : a = x
    · simp [hax]
    · simp [hax, ih]

theorem nodup_dedupFO {α : Type} [DecidableEq α] (l : List α) :
    (dedupFO l).Nodup := by
  induction l with
  | nil => simp [dedupFO]
  | cons x xs ih =>
    refine List.nodup_cons.mpr ⟨?_, ih.filter _⟩
    intro hx
    have := (List.mem_filter.mp hx).2
    simp at this

theorem dedupFO_perm_dedup {α : Type} [DecidableEq α] (l : List α) :
    (dedupFO l).Perm l.dedup := by
  refine (List.perm_ext_iff_of_nodup (nodup_dedupFO l) l.nodup_dedup).mpr ?_
  intro a
  rw [mem_dedupFO, List.mem_dedup]

theorem counter_keys {α : Type} [DecidableEq α] (xs : List α) :
    (counter xs).map Prod.fst = dedupFO xs := by
  simp [counter, List.map_map, Function.comp_def]

theorem counter_sum {α : Type} [DecidableEq α] (xs : List α) :
    ((counter xs).map (fun p => p.2)).sum = xs.length := by
  have h1 : ((counter xs).map (fun p => p.2)) = (dedupFO xs).map (fun v => xs.count v) := by
    simp [counter, List.map_map, Function.comp_def]
  have h2 : ((dedupFO xs).map (fun v => xs.count v)).Perm
      (xs.dedup.map (fun v => xs.count v)) :=
    (dedupFO_perm_dedup xs).map _
  rw [h1, h2.sum_eq]
  exact List.sum_map_count_dedup_eq_length xs

theorem mem_counter {α : Type} [DecidableEq α] {xs : List α} {p : α × Nat}
    (hp : p ∈ counter xs) : p.1 ∈ xs ∧ p.2 = xs.count p.1 := by
  rcases List.mem_map.mp hp with ⟨v, hv, rfl⟩
  exact ⟨mem_dedupFO.mp hv, rfl⟩

theorem counter_mem_of_mem {α : Type} [DecidableEq α] {xs : List α} {a : α}
    (ha : a ∈ xs) : (a, xs.count a) ∈ counter xs :=
  List.mem_map.mpr ⟨a, mem_dedupFO.mpr ha, rfl⟩

theorem perm_orderedInsertB {α : Type} (le : α → α → Bool) (a : α) (l : List α) :
    (orderedInsertB le a l).Perm (a :: l) := by
  induction l with
  | nil => simp [orderedInsertB]
  | cons b l ih =>
    by_cases h : le a b = true
    · simp [orderedInsertB, h]
    · simp only [orderedInsertB, h, if_false, Bool.false_eq_true]
      exact (ih.cons b).trans (List.Perm.swap a b l)

theorem perm_insertionSortB {α : Type} (le : α → α → Bool) (l : List α) :
    (insertionSortB le l).Perm l := by
  induction l with
  | nil => simp [insertionSortB]
  | cons a l ih =>
    exact (perm_orderedInsertB le a (insertionSortB le l)).trans (ih.cons a)

theorem pairwise_orderedInsertB {α : Type} {le : α → α → Bool}
    (htot : ∀ a b, le a b || le b a) (htrans : ∀ a b c, le a b → le b c → le a c)
    (a : α) {l : List α} (hl : l.Pairwise (fun x y => le x y = true)) :
    (orderedInsertB le a l).Pairwise (fun x y => le x y = true) := by
  induction l with
  | nil => simp [orderedInsertB]
  | cons b l ih =>
    rcases List.pairwise_cons.mp hl with ⟨hb, hl2⟩
    by_cases h : le a b = true
    · simp only [orderedInsertB, h, if_true]
      refine List.pairwise_cons.mpr ⟨?_, hl⟩
      intro x hx
      rcases List.mem_cons.mp hx with rfl | hxl
      · exact h
      · exact htrans a b x h (hb x hxl)
    · have hba : le b a = true := by
        have := htot a b
        simp only [h, Bool.false_or] at this
        exact this
      simp only [orderedInsertB, h, if_false, Bool.false_eq_true]
      refine List.pairwise_cons.mpr ⟨?_, ih hl2⟩
      intro x hx
      rcases List.mem_cons.mp ((perm_orderedInsertB le a l).mem_iff.mp hx) with rfl | h2
      · exact hba
      · exact hb x h2

theorem pairwise_insertionSortB {α : Type} {le : α → α → Bool}
    (htot : ∀ a b, le a b || le b a) (htrans : ∀ a b c, le a b → le b c → le a c)
    (l : List α) :
    (insertionSortB le l).Pairwise (fun x y => le x y = true) := by
  induction l with
  | nil => simp [insertionSortB]
  | cons a l ih => exact pairwise_orderedInsertB htot htrans a ih

theorem sortValuesAsc_perm {α : Type} (le : α → α → Bool) (xs : List α) :
    (sortValuesAsc le xs).Perm xs :=
  perm_insertionSortB le xs

theorem sortValuesDesc_perm {α : Type} (le : α → α → Bool) (xs : List α) :
    (sortValuesDesc le xs).Perm xs :=
  ((List.reverse_perm _).trans (perm_insertionSortB le xs.reverse)).trans
    (List.reverse_perm xs)

theorem sortValuesAsc_pairwise {α : Type} (le : α → α → Bool)
    (htot : ∀ a b, le a b || le b a) (htrans : ∀ a b c, le a b → le b c → le a c)
    (xs : List α) :
    (sortValuesAsc le xs).Pairwise (fun x y => le x y = true) :=
  pairwise_insertionSortB htot htrans xs

theorem sortValuesDesc_pairwise {α : Type} (le : α → α → Bool)
    (htot : ∀ a b, le a b || le b a) (htrans : ∀ a b c, le a b → le b c → le a c)
    (xs : List α) :
    (sortValuesDesc le xs).Pairwise (fun x y => le y x = true) := by
  unfold sortValuesDesc
  exact List.pairwise_reverse.mpr (pairwise_insertionSortB htot htrans xs.reverse)

theorem keys_upsert {β : Type} (d : List (String × β)) (k : String) (v : β) :
    (upsert d k v).map Prod.fst =
      if (d.map Prod.fst).contains k then d.map Prod.fst
      else d.map Prod.fst ++ [k] := by
  unfold upsert
  by_cases h : (d.map Prod.fst).contains k = true
  · rw [if_pos h, if_pos h, List.map_map]
    have hmap : ∀ d2 : List (String × β),
        List.map (Prod.fst ∘ fun kv => if kv.1 = k then (k, v) else kv) d2 =
          List.map Prod.fst d2 := by
      intro d2
      induction d2 with
      | nil => rfl
      | cons kv d2 ih =>
        simp only [List.map_cons, ih]
        by_cases hk : kv.1 = k
        · simp [Function.comp_def, hk]
        · simp [Function.comp_def, hk]
    exact hmap d
  · rw [if_neg h, if_neg h, List.map_append]
    rfl

theorem mem_keys_dictOf {β : Type} (ps : List (String × β)) (k : String) :
    k ∈ (dictOf ps).map Prod.fst ↔ k ∈ ps.map Prod.fst := by
  suffices h : ∀ d : List (String × β),
      (k ∈ (ps.foldl (fun d kv => upsert d kv.1 kv.2) d).map Prod.fst ↔
        k ∈ d.map Prod.fst ∨ k ∈ ps.map Prod.fst) by
    simpa [dictOf] using h []
  induction ps with
  | nil => simp
  | cons p ps ih =>
    intro d
    simp only [List.foldl_cons, List.map_cons, List.mem_cons]
    rw [ih (upsert d p.1 p.2), keys_upsert]
    by_cases h : (d.map Prod.fst).contains p.1 = true
    · rw [if_pos h]
      have hp : p.1 ∈ d.map Prod.fst := by simpa using h
      constructor
      · rintro (hd | hps)
        · exact Or.inl hd
        · exact Or.inr (Or.inr hps)
      · rintro (hd | rfl | hps)
        · exact Or.inl hd
        · exact Or.inl hp
        · exact Or.inr hps
    · rw [if_neg h]
      simp only [List.mem_append, List.mem_singleton]
      tauto

theorem getCol_length (t : Table) (c : String) :
    (getCol t c).length = t.rows.length := by
  simp [getCol]

theorem decadeOf_eq_floor (q : ℚ) : decadeOf q = Int.floor (q / 10) * 10 := by
  have h1 : (q / 10 : ℚ) = ((q.num : ℚ)) / (((q.den * 10 : ℕ)) : ℚ) := by
    push_cast
    conv_lhs => rw [← Rat.num_div_den q]
    rw [div_div]
  have h2 : Int.floor (q / 10) = q.num / ((q.den * 10 : ℕ) : ℤ) := by
    rw [h1]
    exact Rat.floor_intCast_div_natCast q.num (q.den * 10)
  rw [decadeOf, h2]
  congr 1
  push_cast
  exact Int.fdiv_eq_ediv q.num (by positivity)

theorem analyze_objects_labels (t : Table) (lbl : String) :
    lbl ∈ (analyze_objects t).map Prod.fst ↔
      ∃ c ∈ t.cols, strStartsWith c "has_" = true ∧
        0 < nonMissingCount t c ∧ strReplace c "has_" = lbl := by
  simp only [analyze_objects]
  rw [((sortValuesDesc_perm _ _).map Prod.fst).mem_iff, List.map_map]
  have hcomp : (Prod.fst ∘ fun kv : String × Nat =>
      (kv.1, kv.2, round2 ((kv.2 : ℚ) / (t.rows.length : ℚ) * 100))) = Prod.fst := rfl
  rw [hcomp, mem_keys_dictOf, List.mem_map]
  constructor
  · rintro ⟨p, hp, rfl⟩
    rcases List.mem_filterMap.mp hp with ⟨c, hc, hfc⟩
    rcases List.mem_filter.mp hc with ⟨hcc, hcs⟩
    by_cases h : 0 < nonMissingCount t c
    · rw [if_pos h] at hfc
      obtain rfl := (Option.some_inj.mp hfc).symm
      exact ⟨c, hcc, hcs, h, rfl⟩
    · rw [if_neg h] at hfc
      exact absurd hfc (by simp)
  · rintro ⟨c, hcc, hcs, hpos, rfl⟩
    refine ⟨(strReplace c "has_", nonMissingCount t c), ?_, rfl⟩
    exact List.mem_filterMap.mpr
      ⟨c, List.mem_filter.mpr ⟨hcc, hcs⟩, by rw [if_pos hpos]⟩

theorem analyze_object_percentages_labels (t : Table) (lbl : String) :
    lbl ∈ (analyze_object_percentages t).map Prod.fst ↔
      ∃ c ∈ t.cols, strEndsWith c "_percent" = true ∧
        0 < nonMissingCount t c ∧
        strReplace (strReplace c "_percent") "has_" = lbl := by
  simp only [analyze_object_percentages]
  rw [((sortValuesDesc_perm _ _).map Prod.fst).mem_iff, mem_keys_dictOf,
    List.mem_map]
  constructor
  · rintro ⟨p, hp, rfl⟩
    rcases List.mem_filterMap.mp hp with ⟨c, hc, hfc⟩
    rcases List.mem_filter.mp hc with ⟨hcc, hcs⟩
    by_cases h : 0 < (((getCol t c).filterMap id).map Value.toQ).length
    · rw [if_pos h] at hfc
      obtain rfl := (Option.some_inj.mp hfc).symm
      refine ⟨c, hcc, hcs, ?_, rfl⟩
      simpa [nonMissingCount] using h
    · rw [if_neg h] at hfc
      exact absurd hfc (by simp)
  · rintro ⟨c, hcc, hcs, hpos, rfl⟩
    have hpos2 : 0 < (((getCol t c).filterMap id).map Value.toQ).length := by
      simpa [nonMissingCount] using hpos
    refine ⟨(strReplace (strReplace c "_percent") "has_",
      (qmean (((getCol t c).filterMap id).map Value.toQ),
       qmedian (((getCol t c).filterMap id).map Value.toQ),
       qmax (((getCol t c).filterMap id).map Value.toQ),
       (((getCol t c).filterMap id).map Value.toQ).length)), ?_, rfl⟩
    exact List.mem_filterMap.mpr
      ⟨c, List.mem_filter.mpr ⟨hcc, hcs⟩, by rw [if_pos hpos2]⟩

theorem catDist_spec (t : Table) (c : String) :
    ((catDist t c).map Prod.fst).Nodup
  ∧ (∀ v : Cell, v ∈ (catDist t c).map Prod.fst ↔ v ∈ getCol t c)
  ∧ ((catDist t c).map (fun r => r.2.1)).sum = t.rows.length
  ∧ ∀ r ∈ catDist t c, r.2.2 = round2 ((r.2.1 : ℚ) / (t.rows.length : ℚ) * 100) := by
  simp only [catDist]
  have hkeys : ((sortValuesDesc (fun a b : Cell × Nat => decide (a.2 ≤ b.2))
      (counter (getCol t c))).map
        (fun vc => (vc.1, vc.2, round2 ((vc.2 : ℚ) / (t.rows.length : ℚ) * 100)))).map
        Prod.fst =
      (sortValuesDesc (fun a b : Cell × Nat => decide (a.2 ≤ b.2))
        (counter (getCol t c))).map Prod.fst := by
    rw [List.map_map]
    rfl
  have hperm := (sortValuesDesc_perm (fun a b : Cell × Nat => decide (a.2 ≤ b.2))
    (counter (getCol t c))).map (Prod.fst (α := Cell) (β := Nat))
  refine ⟨?_, ?_, ?_, ?_⟩
  · rw [hkeys, hperm.nodup_iff, counter_keys]
    exact nodup_dedupFO _
  · intro v
    rw [hkeys, hperm.mem_iff, counter_keys, mem_dedupFO]
  · rw [List.map_map]
    have hcomp : ((fun r : Cell × Nat × ℚ => r.2.1) ∘
        fun vc : Cell × Nat =>
          (vc.1, vc.2, round2 ((vc.2 : ℚ) / (t.rows.length : ℚ) * 100))) =
        fun vc : Cell × Nat => vc.2 := rfl
    rw [hcomp]
    have hp2 := (sortValuesDesc_perm (fun a b : Cell × Nat => decide (a.2 ≤ b.2))
      (counter (getCol t c))).map (fun vc : Cell × Nat => vc.2)
    rw [hp2.sum_eq, ← getCol_length t c]
    exact counter_sum _
  · intro r hr
    rcases List.mem_map.mp hr with ⟨vc, hvc, rfl⟩
    rfl

theorem getCol_mk (cols : List String) (rows : List Row) (c : String) :
    getCol ⟨cols, rows⟩ c = rows.map (fun r => getCellC cols r c) :=
  rfl

theorem decideLe_total_int {α : Type} (f : α → Int) (a b : α) :
    (decide (f a ≤ f b) || decide (f b ≤ f a)) = true := by
  rcases Int.le_total (f a) (f b) with h | h
  · simp [h]
  · simp [h]

theorem decideLe_trans_int {α : Type} (f : α → Int) (a b c : α)
    (h1 : decide (f a ≤ f b) = true) (h2 : decide (f b ≤ f c) = true) :
    decide (f a ≤ f c) = true := by
  simp only [decide_eq_true_iff] at h1 h2 ⊢
  exact le_trans h1 h2

/-! The claims. -/

/-- C1: for every table, the categorical distribution reducer (applied to
`gender` and to `work_type`) outputs one row per distinct observed cell
of the column, the missing cell being its own category when observed;
the counts sum to the total record count; and each row's percentage is
`count / total * 100` rounded to 2 decimal digits. -/
theorem claim_C1_categorical_distribution (t : Table) :
    (((analyze_gender t).map Prod.fst).Nodup
      ∧ (∀ v : Cell, v ∈ (analyze_gender t).map Prod.fst ↔ v ∈ getCol t "gender")
      ∧ ((analyze_gender t).map (fun r => r.2.1)).sum = t.rows.length
      ∧ ∀ r ∈ analyze_gender t,
          r.2.2 = round2 ((r.2.1 : ℚ) / (t.rows.length : ℚ) * 100))
  ∧ (((analyze_work_types t).map Prod.fst).Nodup
      ∧ (∀ v : Cell, v ∈ (analyze_work_types t).map Prod.fst ↔ v ∈ getCol t "work_type")
      ∧ ((analyze_work_types t).map (fun r => r.2.1)).sum = t.rows.length
      ∧ ∀ r ∈ analyze_work_types t,
          r.2.2 = round2 ((r.2.1 : ℚ) / (t.rows.length : ℚ) * 100)) :=
  ⟨catDist_spec t "gender", catDist_spec t "work_type"⟩

/-- C1 witness: on the 4-record gender fixture the reducer lists the
observed category `m` and its counts sum to the record count. -/
theorem claim_C1_witness :
    (some (Value.str "m") ∈ (analyze_gender sampleGender).map Prod.fst)
  ∧ ((analyze_gender sampleGender).map (fun r => r.2.1)).sum =
      sampleGender.rows.length :=
  ⟨((claim_C1_categorical_distribution sampleGender).1.2.1
      (some (Value.str "m"))).mpr (by decide),
   (claim_C1_categorical_distribution sampleGender).1.2.2.1⟩

/-- C2: the multi-valued splitter skips records whose cell is missing,
splits non-missing values on the pipe delimiter (a value without the
delimiter being a single segment), trims each segment, and counts one
occurrence per segment; on records `A|B` and `B` it counts `A` once and
`B` twice. -/
theorem claim_C2_splitter :
    (∀ (cols : List String) (rs1 rs2 : List Row) (r : Row),
        getCellC cols r "artist_name" = none →
        analyze_artists ⟨cols, rs1 ++ r :: rs2⟩ = analyze_artists ⟨cols, rs1 ++ rs2⟩)
  ∧ ("A", 1) ∈ analyze_artists sampleSplit
  ∧ ("B", 2) ∈ analyze_artists sampleSplit
  ∧ analyze_artists sampleTrim = [("A", 1), ("B", 1)] := by
  refine ⟨?_, by decide, by decide, by decide⟩
  intro cols rs1 rs2 r h
  have hseg : allSegments ⟨cols, rs1 ++ r :: rs2⟩ "artist_name" =
      allSegments ⟨cols, rs1 ++ rs2⟩ "artist_name" := by
    simp [allSegments, getCol_mk, getCell, h]
  simp only [analyze_artists, splitCounts, hseg]

/-- C2 witness: inserting a missing-artist record between the two fixture
records leaves the artist counts unchanged. -/
theorem claim_C2_witness :
    analyze_artists ⟨["artist_name"],
        [[some (.str "A|B")], [none], [some (.str "B")]]⟩ =
      analyze_artists ⟨["artist_name"], [[some (.str "A|B")], [some (.str "B")]]⟩ :=
  claim_C2_splitter.1 ["artist_name"]
    [[some (.str "A|B")]] [[some (.str "B")]] [none] (by decide)

/-- C3: when every record's `creation_year` is missing the summary
reducer fails (the `int(...)` coercion of the NaN min raises), modelled
as the `none` result. -/
theorem claim_C3_summary_fails (t : Table)
    (h : ∀ r ∈ t.rows, getCell t r "creation_year" = none) :
    generate_summary_stats t = none := by
  have hy : yearsQ t = [] := by
    have hfm : (getCol t "creation_year").filterMap id = [] := by
      rw [List.filterMap_eq_nil_iff]
      intro a ha
      rcases List.mem_map.mp ha with ⟨r, hr, rfl⟩
      exact h r hr
    simp [yearsQ, hfm]
  rw [generate_summary_stats, hy]
  rfl

/-- C3 witness: the all-missing-years fixture makes the summary fail. -/
theorem claim_C3_witness :
    (∀ r ∈ sampleAllMissingYears.rows,
      getCell sampleAllMissingYears r "creation_year" = none)
  ∧ generate_summary_stats sampleAllMissingYears = none :=
  ⟨by decide, claim_C3_summary_fails sampleAllMissingYears (by decide)⟩

/-- C4 counterexample: on a table whose only record has a missing
`artist_name`, `groupby` (with its default `dropna=True`) drops the
record entirely and the output is empty, so there is no row for the
missing-artist group, contrary to the claim. -/
theorem claim_C4_counterexample :
    (∃ r ∈ sampleMissingArtist.rows,
      getCell sampleMissingArtist r "artist_name" = none)
  ∧ analyze_museum_collection sampleMissingArtist = [] := by
  decide

/-- C4 amended: the grouped aggregation drops records with a missing
`artist_name`; its output has a row exactly for each observed
non-missing artist value, and no row for the missing group. -/
theorem claim_C4_grouping (t : Table) :
    (∀ ow ∈ analyze_museum_collection t,
      ∃ r ∈ t.rows, getCell t r "artist_name" = some ow.1)
  ∧ (∀ r ∈ t.rows, ∀ v, getCell t r "artist_name" = some v →
      ∃ ow ∈ analyze_museum_collection t, ow.1 = v) := by
  have hkeys : ∀ v, v ∈ sortValuesAsc valueLe (dedupFO ((keyedRows t).map Prod.fst)) →
      ∃ r ∈ t.rows, getCell t r "artist_name" = some v := by
    intro v hv
    have h1 : v ∈ (keyedRows t).map Prod.fst :=
      mem_dedupFO.mp ((sortValuesAsc_perm _ _).mem_iff.mp hv)
    rcases List.mem_map.mp h1 with ⟨kr, hkr, rfl⟩
    simp only [keyedRows] at hkr
    rcases List.mem_filterMap.mp hkr with ⟨r, hr, hf⟩
    cases hg : getCell t r "artist_name" with
    | none =>
      rw [hg] at hf
      exact absurd hf (by simp)
    | some w =>
      rw [hg] at hf
      obtain rfl := Option.some_inj.mp hf
      exact ⟨r, hr, hg⟩
  constructor
  · intro ow how
    simp only [analyze_museum_collection] at how
    have how2 : ow ∈ (sortValuesAsc valueLe
        (dedupFO ((keyedRows t).map Prod.fst))).map (museumRow t) := by
      rcases List.mem_append.mp how with h | h
      · exact (List.mem_filter.mp ((sortValuesDesc_perm _ _).mem_iff.mp h)).1
      · exact (List.mem_filter.mp h).1
    rcases List.mem_map.mp how2 with ⟨v, hv, rfl⟩
    exact hkeys v hv
  · intro r hr v hg
    have hk : (v, r) ∈ keyedRows t := by
      simp only [keyedRows]
      exact List.mem_filterMap.mpr ⟨r, hr, by rw [hg]⟩
    have hv4 : v ∈ sortValuesAsc valueLe (dedupFO ((keyedRows t).map Prod.fst)) :=
      (sortValuesAsc_perm _ _).mem_iff.mpr
        (mem_dedupFO.mpr (List.mem_map.mpr ⟨(v, r), hk, rfl⟩))
    have hrow : museumRow t v ∈ (sortValuesAsc valueLe
        (dedupFO ((keyedRows t).map Prod.fst))).map (museumRow t) :=
      List.mem_map.mpr ⟨v, hv4, rfl⟩
    simp only [analyze_museum_collection]
    by_cases hp : (museumRow t v).2.1.isSome = true
    · refine ⟨museumRow t v, List.mem_append.mpr (Or.inl ?_), rfl⟩
      exact (sortValuesDesc_perm _ _).mem_iff.mpr (List.mem_filter.mpr ⟨hrow, hp⟩)
    · refine ⟨museumRow t v, List.mem_append.mpr (Or.inr ?_), rfl⟩
      exact List.mem_filter.mpr ⟨hrow, by simp [hp]⟩

/-- C4 witness: a table with one record whose artist is `X` produces a
group row keyed by `X`. -/
theorem claim_C4_witness :
    ∃ ow ∈ analyze_museum_collection sampleOneArtist, ow.1 = Value.str "X" :=
  (claim_C4_grouping sampleOneArtist).2
    [some (.str "X"), some (.str "5"), some (.str "o1")] (by decide)
    (Value.str "X") (by decide)

/-- C5 counterexample: for the column `has_has_x` the script's
`col.replace('has_', '')` removes both occurrences of `has_` and labels
the row `x`, not `has_x` as stripping only the leading occurrence
would. -/
theorem claim_C5_counterexample :
    strStartsWith "has_has_x" "has_" = true
  ∧ (analyze_objects sampleNestedHas).map Prod.fst = ["x"]
  ∧ "x" ≠ "has_x" := by
  decide

/-- C5 amended: the appearance-counts reducer emits a label exactly when
some `has_`-prefixed column with a positive non-missing count maps to it,
where a column's label is the column name with every occurrence of the
substring `has_` removed (not only the leading prefix). -/
theorem claim_C5_appearance_labels (t : Table) (lbl : String) :
    lbl ∈ (analyze_objects t).map Prod.fst ↔
      ∃ c ∈ t.cols, strStartsWith c "has_" = true ∧
        0 < nonMissingCount t c ∧ strReplace c "has_" = lbl :=
  analyze_objects_labels t lbl

/-- C5 witness: the nested-`has_` fixture emits the label `x`. -/
theorem claim_C5_witness :
    "x" ∈ (analyze_objects sampleNestedHas).map Prod.fst :=
  (claim_C5_appearance_labels sampleNestedHas "x").mpr
    ⟨"has_has_x", by decide, by decide, by decide, by decide⟩

/-- C6: the temporal reducer drops missing years, buckets the rest by
`⌊y / 10⌋ * 10`, outputs one row per distinct decade with its count,
sorted ascending by decade; years `1923, 1929, 1931` give exactly
`(1920, 2), (1930, 1)`. -/
theorem claim_C6_temporal (t : Table) :
    ((analyze_temporal t).Pairwise (fun a b => a.1 ≤ b.1))
  ∧ (((analyze_temporal t).map Prod.fst).Nodup)
  ∧ (∀ d : Int, d ∈ (analyze_temporal t).map Prod.fst ↔ d ∈ specDecades t)
  ∧ (∀ p ∈ analyze_temporal t, p.2 = (specDecades t).count p.1)
  ∧ analyze_temporal sampleYears = [(1920, 2), (1930, 1)] := by
  have hsd : specDecades t =
      ((getCol t "creation_year").filterMap id).map (fun v => decadeOf v.toQ) := by
    have hfun : (fun v : Value => Int.floor (v.toQ / 10) * 10) =
        fun v : Value => decadeOf v.toQ := by
      funext v
      exact (decadeOf_eq_floor v.toQ).symm
    rw [specDecades, hfun]
  have hperm : (analyze_temporal t).Perm
      (counter (((getCol t "creation_year").filterMap id).map
        (fun v => decadeOf v.toQ))) := by
    simp only [analyze_temporal]
    exact (sortValuesAsc_perm _ _).trans (sortValuesDesc_perm _ _)
  refine ⟨?_, ?_, ?_, ?_, by decide⟩
  · have hpw := sortValuesAsc_pairwise (fun a b : Int × Nat => decide (a.1 ≤ b.1))
      (decideLe_total_int (fun p : Int × Nat => p.1))
      (decideLe_trans_int (fun p : Int × Nat => p.1))
      (sortValuesDesc (fun a b : Int × Nat => decide (a.2 ≤ b.2))
        (counter (((getCol t "creation_year").filterMap id).map
          (fun v => decadeOf v.toQ))))
    exact hpw.imp (fun h => of_decide_eq_true h)
  · rw [(hperm.map Prod.fst).nodup_iff, counter_keys]
    exact nodup_dedupFO _
  · intro d
    rw [(hperm.map Prod.fst).mem_iff, counter_keys, mem_dedupFO, hsd]
  · intro p hp
    rw [hsd]
    exact (mem_counter (hperm.mem_iff.mp hp)).2

/-- C6 witness: the decade row `(1920, 2)` is produced and its count is
the multiplicity of `1920` among the bucketed years. -/
theorem claim_C6_witness :
    (1920, 2) ∈ analyze_temporal sampleYears
  ∧ (2 : Nat) = (specDecades sampleYears).count (1920 : Int) :=
  ⟨by decide, (claim_C6_temporal sampleYears).2.2.2.1 (1920, 2) (by decide)⟩

/-- C8: the pipeline is deterministic: two runs of every reducer on the
same table give the same outputs. -/
theorem claim_C8_deterministic (t : Table)
    (o1 o2 : Option (Summary × List (String × ℚ)) × List (Cell × Nat × ℚ) ×
      List (String × Nat) × List (String × Nat) × List (Int × Nat) ×
      List (Cell × Nat × ℚ) × List (Value × Cell × Nat) ×
      List (String × Nat × ℚ) × List (String × ℚ × ℚ × ℚ × Nat))
    (h1 : o1 = runPipeline t) (h2 : o2 = runPipeline t) : o1 = o2 :=
  h1.trans h2.symm

/-- C8 witness: two runs on the splitter fixture agree. -/
theorem claim_C8_witness :
    runPipeline sampleSplit = runPipeline sampleSplit :=
  claim_C8_deterministic sampleSplit (runPipeline sampleSplit)
    (runPipeline sampleSplit) rfl rfl

/-- C9: a column named `has_hat_percent` with at least one non-missing
value is picked up by both reducers of the presence/coverage family, the
appearance reducer labelling it `hat_percent` (only `has_` removed) and
the coverage reducer labelling it `hat` (both affixes removed) — two
different labels for the same column. -/
theorem claim_C9_dual_labels (t : Table)
    (h1 : "has_hat_percent" ∈ t.cols)
    (h2 : 0 < nonMissingCount t "has_hat_percent") :
    "hat_percent" ∈ (analyze_objects t).map Prod.fst
  ∧ "hat" ∈ (analyze_object_percentages t).map Prod.fst
  ∧ "hat_percent" ≠ "hat" := by
  refine ⟨?_, ?_, by decide⟩
  · exact (analyze_objects_labels t "hat_percent").mpr
      ⟨"has_hat_percent", h1, by decide, h2, by decide⟩
  · exact (analyze_object_percentages_labels t "hat").mpr
      ⟨"has_hat_percent", h1, by decide, h2, by decide⟩

/-- C9 witness: the one-column `has_hat_percent` fixture. -/
theorem claim_C9_witness :
    "hat_percent" ∈ (analyze_objects sampleHatPercent).map Prod.fst
  ∧ "hat" ∈ (analyze_object_percentages sampleHatPercent).map Prod.fst
  ∧ "hat_percent" ≠ "hat" :=
  claim_C9_dual_labels sampleHatPercent (by decide) (by decide)

/-- C10: `unique_artists` counts distinct whole non-missing
`artist_name` values — `A|B` is one artist — so on the multi-valued
fixture it is `1` while the splitter's artist-counts output has `2`
rows. -/
theorem claim_C10_unique_artists :
    ∃ s ms, generate_summary_stats sampleMultiArtist = some (s, ms)
      ∧ s.unique_artists = 1
      ∧ (analyze_artists sampleMultiArtist).length = 2
      ∧ s.unique_artists < (analyze_artists sampleMultiArtist).length := by
  refine ⟨_, _, rfl, by decide, by decide, by decide⟩

end AnalyzeDataset
